import Mathlib

/-!
Shallow embedding of the rbchunk core (src/lib.rs) in Lean 4, together with
theorems settling the specification claims about it.

Modelling conventions:
* Rust machine integers (u32, u64) are modelled as `Nat`; wrapping subtraction
  and casts are made explicit (`u64_sub`, `% 2 ^ 32`, `% 2 ^ 64`) at exactly
  the places where the Rust operation can overflow.  Release-profile semantics
  are used for arithmetic overflow (two's-complement wrap); `Option.unwrap` /
  `Result.unwrap` on an empty value is modelled as an explicit `panicked`
  result, since it panics in every profile.
* Byte buffers are `List Nat` (each element a byte value).
* The in-memory file system is a function `String → Option Nat` giving the
  byte length of a named file (`fs::metadata(..).len()`), and the source image
  is a `List Nat` of its bytes.  OS-level I/O errors (which the in-memory
  model cannot produce) correspond to branches of the Rust code that the model
  never takes; those branches are kept in the result types for fidelity.
* String tokenisation (`split_whitespace`, `split(':')`, `str::parse`) is
  re-implemented structurally over `String.data` so that every definition
  evaluates inside the kernel.
-/

namespace Rbchunk

/-- Wrapping u64 subtraction: for `x, y < 2 ^ 64` this is two's-complement
`x - y` exactly (Rust release-profile semantics of `u64` subtraction). -/
def u64_sub (x y : Nat) : Nat :=
  if y ≤ x then x - y else 2 ^ 64 - (y - x)

/-- Accumulating decimal parser over characters; `none` on any non-digit
(models the digit loop of Rust `str::parse` for unsigned integers). -/
def parse_digits : List Char → Nat → Option Nat
  | [], acc => some acc
  | c :: r, acc =>
    if c.isDigit then parse_digits r (acc * 10 + (c.toNat - 48)) else none

/-- Model of Rust `str::parse::<u64>()`: an optional leading `+`, then at
least one decimal digit, value below `2 ^ 64` (overflow is a parse error). -/
def parse_u64 (s : String) : Option Nat :=
  let l := match s.data with
    | '+' :: r => r
    | l => l
  match l with
  | [] => none
  | _ =>
    match parse_digits l 0 with
    | none => none
    | some n => if n < 2 ^ 64 then some n else none

/-- Model of Rust `str::parse::<u32>()` (used for the TRACK number). -/
def parse_u32 (s : String) : Option Nat :=
  let l := match s.data with
    | '+' :: r => r
    | l => l
  match l with
  | [] => none
  | _ =>
    match parse_digits l 0 with
    | none => none
    | some n => if n < 2 ^ 32 then some n else none

/-- Whitespace tokenisation over characters, dropping empty tokens
(models Rust `str::split_whitespace`).  `acc` holds the current token
reversed. -/
def chunk_tokens : List Char → List Char → List (List Char)
  | [], acc => if acc = [] then [] else [acc.reverse]
  | c :: r, acc =>
    if c.isWhitespace then
      (if acc = [] then chunk_tokens r [] else acc.reverse :: chunk_tokens r [])
    else chunk_tokens r (c :: acc)

/-- The whitespace tokens of one sheet line (Rust `s.split_whitespace()`). -/
def line_tokens (s : String) : List String :=
  (chunk_tokens s.data []).map String.mk

/-- Splitting on a separator character, keeping empty pieces
(models Rust `str::split(sep)`). -/
def split_sep (sep : Char) : List Char → List (List Char)
  | [] => [[]]
  | c :: r =>
    if c = sep then [] :: split_sep sep r
    else
      match split_sep sep r with
      | [] => [[c]]
      | p :: ps => (c :: p) :: ps

/-- Sector-mode labels (Rust `enum Mode`). -/
inductive Mode where
  | unknown
  | audio
  | mode1_2352
  | mode2_2352
  | mode2_2336
deriving DecidableEq, Repr

/-- Output-file extensions (Rust `enum Extension`). -/
inductive Extension where
  | ugh
  | iso
  | cdr
  | wav
deriving DecidableEq, Repr

/-- Conversion options (Rust `struct Args`).  Field `swap_audo_bytes` keeps
the source's spelling. -/
structure Args where
  output_name : String := ""
  bin_file : String := ""
  cue_file : String := ""
  verbose : Bool := false
  psx_truncate : Bool := false
  raw : Bool := false
  swap_audo_bytes : Bool := false
  to_wav : Bool := false
deriving DecidableEq, Repr

/-- One logical track (Rust `struct Track`); field defaults mirror
`#[derive(Default)]`. -/
structure Track where
  start_sector : Nat := 0
  stop_sector : Option Nat := none
  start : Nat := 0
  stop : Option Nat := none
  mode : Mode := Mode.unknown
  extension : Extension := Extension.ugh
  number : Nat := 0
  audio : Bool := false
  data_block_offset : Nat := 0
  data_block_size : Nat := 0
deriving DecidableEq, Repr

/-- The all-defaults track value (Rust `Track::default()`). -/
def default_track : Track := {}

/-- Rust `Track::get_track_mode`: resolves the payload window, extension and
audio flag of `t` from its mode and the options. -/
def get_track_mode (t : Track) (a : Args) : Track :=
  match t.mode with
  | Mode.unknown =>
    { t with data_block_offset := 0, data_block_size := 2352,
             extension := Extension.ugh }
  | Mode.audio =>
    { t with data_block_offset := 0, data_block_size := 2352, audio := true,
             extension := if a.to_wav then Extension.wav else Extension.cdr }
  | Mode.mode1_2352 =>
    { t with data_block_offset := 16, data_block_size := 2048,
             extension := Extension.iso }
  | Mode.mode2_2352 =>
    if a.raw then
      { t with extension := Extension.iso,
               data_block_offset := 0, data_block_size := 2352 }
    else if a.psx_truncate then
      { t with extension := Extension.iso,
               data_block_offset := 0, data_block_size := 2336 }
    else
      { t with extension := Extension.iso,
               data_block_offset := 24, data_block_size := 2048 }
  | Mode.mode2_2336 =>
    { t with data_block_offset := 16, data_block_size := 2336,
             extension := Extension.iso }

/-- Rust `impl From<&str> for Mode`: label-to-variant mapping with a
catch-all to `Unknown`. -/
def mode_of_str (s : String) : Mode :=
  if s = "AUDIO" then Mode.audio
  else if s = "MODE1/2352" then Mode.mode1_2352
  else if s = "MODE2/2336" then Mode.mode2_2336
  else if s = "MODE2/2352" then Mode.mode2_2352
  else Mode.unknown

/-- The observable output of the resolver on a freshly created track carrying
mode `m` (the only way `get_track_mode` is invoked by `read_cue`). -/
def resolved_fields (m : Mode) (a : Args) : Nat × Nat × Extension × Bool :=
  let t := get_track_mode { default_track with mode := m } a
  (t.data_block_offset, t.data_block_size, t.extension, t.audio)

/-- C1: `get_track_mode` realises exactly the §4.1 table on every mode and
every options record — Unknown ↦ (0, 2352, ugh, no audio); Audio ↦
(0, 2352, wav when `to_wav` else cdr, audio); Mode1/2352 ↦ (16, 2048, iso);
Mode2/2352 ↦ (0, 2352, iso) when `raw`, else (0, 2336, iso) when
`psx_truncate`, else (24, 2048, iso), with `raw` winning when both flags are
set; Mode2/2336 ↦ (16, 2336, iso); and every unrecognised mode label resolves
to `Unknown` without error. -/
theorem C1_track_mode_table (a : Args) (s : String)
    (h1 : s ≠ "AUDIO") (h2 : s ≠ "MODE1/2352")
    (h3 : s ≠ "MODE2/2336") (h4 : s ≠ "MODE2/2352") :
    resolved_fields Mode.unknown a = (0, 2352, Extension.ugh, false)
    ∧ resolved_fields Mode.audio a =
        (0, 2352, (if a.to_wav then Extension.wav else Extension.cdr), true)
    ∧ resolved_fields Mode.mode1_2352 a = (16, 2048, Extension.iso, false)
    ∧ resolved_fields Mode.mode2_2352 a =
        (if a.raw then (0, 2352, Extension.iso, false)
         else if a.psx_truncate then (0, 2336, Extension.iso, false)
         else (24, 2048, Extension.iso, false))
    ∧ resolved_fields Mode.mode2_2336 a = (16, 2336, Extension.iso, false)
    ∧ mode_of_str s = Mode.unknown := by
  refine ⟨rfl, ?_, rfl, ?_, rfl, ?_⟩
  · cases h : a.to_wav <;>
      simp [resolved_fields, get_track_mode, default_track, h]
  · cases hr : a.raw <;> cases hp : a.psx_truncate <;>
      simp [resolved_fields, get_track_mode, default_track, hr, hp]
  · simp [mode_of_str, h1, h2, h3, h4]

/-- Witness for C1 at a concrete options record with both `raw` and
`psx_truncate` set (the precedence row) and a concrete unknown label. -/
theorem C1_track_mode_table_witness :
    resolved_fields Mode.mode2_2352
        { raw := true, psx_truncate := true } = (0, 2352, Extension.iso, false)
    ∧ mode_of_str "CDG" = Mode.unknown := by
  have h := C1_track_mode_table { raw := true, psx_truncate := true } "CDG"
    (by decide) (by decide) (by decide) (by decide)
  exact ⟨by simpa using h.2.2.2.1, h.2.2.2.2.2⟩

/-- Byte values of an ASCII string literal (Rust `str::as_bytes`). -/
def str_bytes (s : String) : List Nat :=
  s.data.map Char.toNat

/-- Little-endian bytes of a u16 value (Rust `u16::to_le_bytes`). -/
def le16 (n : Nat) : List Nat :=
  [n % 256, n / 256 % 256]

/-- Little-endian bytes of a u32 value (Rust `u32::to_le_bytes`). -/
def le32 (n : Nat) : List Nat :=
  [n % 256, n / 256 % 256, n / 65536 % 256, n / 16777216 % 256]

/-- Rust constant `WAV_RIFF_HEADER_LENGTH`. -/
def WAV_RIFF_HEADER_LENGTH : Nat := 12

/-- Rust constant `WAV_FORMAT_HEADER_LENGTH`. -/
def WAV_FORMAT_HEADER_LENGTH : Nat := 24

/-- Rust constant `WAV_DATA_HEADER_LENGTH`. -/
def WAV_DATA_HEADER_LENGTH : Nat := 8

/-- Rust constant `WAV_HEADER_LENGTH` (= 44). -/
def WAV_HEADER_LENGTH : Nat :=
  WAV_RIFF_HEADER_LENGTH + WAV_FORMAT_HEADER_LENGTH + WAV_DATA_HEADER_LENGTH

/-- Body of Rust `Track::wav_header` once `stop_sector` has been unwrapped to
`ss`.  `reallen` is u64 arithmetic; the size fields go through an `as u32`
cast and a u32 addition, both modelled with explicit `% 2 ^ 32`. -/
def wav_header_bytes (t : Track) (ss : Nat) : List Nat :=
  let reallen := (u64_sub ss t.start_sector + 1) % 2 ^ 64 * t.data_block_size % 2 ^ 64
  str_bytes "RIFF"
    ++ le32 ((reallen % 2 ^ 32 + WAV_DATA_HEADER_LENGTH + WAV_FORMAT_HEADER_LENGTH + 4) % 2 ^ 32)
    ++ str_bytes "WAVE"
    ++ str_bytes "fmt "
    ++ le32 16
    ++ le16 1
    ++ le16 2
    ++ le32 44100
    ++ le32 (44100 * 4)
    ++ le16 4
    ++ le16 16
    ++ str_bytes "data"
    ++ le32 (reallen % 2 ^ 32)

/-- Rust `Track::wav_header`; `none` models the panic of
`self.stop_sector.unwrap()` on an unresolved track. -/
def wav_header (t : Track) : Option (List Nat) :=
  t.stop_sector.map (wav_header_bytes t)

/-- The value carried by the RIFF declared-size field (bytes 4..8 of the
header), read back as a little-endian u32. -/
def riff_size_field (t : Track) : Option Nat :=
  (wav_header t).map (fun l =>
    match (l.drop 4).take 4 with
    | [b0, b1, b2, b3] => b0 + 256 * (b1 + 256 * (b2 + 256 * b3))
    | _ => 0)

/-- C5 counterexample: for a resolved track whose payload is
`2 ^ 32 - 36 = 4294967260` bytes — inside the claimed range
`[0, 2 ^ 32 - 9)` — the u32 addition `reallen + 36` wraps and the RIFF size
field holds `0`, not `payload_bytes + 36`. -/
theorem C5_riff_field_counterexample :
    riff_size_field
        { start_sector := 0, stop_sector := some 0,
          data_block_size := 4294967260 } = some 0
    ∧ (4294967260 : Nat) < 2 ^ 32 - 9
    ∧ (4294967260 : Nat) + 36 ≠ 0 := by
  refine ⟨by decide, by decide, by decide⟩

/-- C5 as amended: for every track with resolved `stop_sector` and
`payload_bytes = (stop_sector - start_sector + 1) * data_block_size`
below `2 ^ 32 - 36` (rather than the claimed `2 ^ 32 - 9`), `wav_header`
returns exactly the 44-byte layout: "RIFF", le32 (payload + 36), "WAVE",
"fmt ", 16, format 1, channels 2, rate 44100, byte-rate 176400, block-align
4, bits 16, "data", le32 payload. -/
theorem C5_wav_header_layout (t : Track) (ss payload : Nat)
    (hss : t.stop_sector = some ss)
    (hle : t.start_sector ≤ ss)
    (hcnt : ss - t.start_sector + 1 < 2 ^ 64)
    (hp : payload = (ss - t.start_sector + 1) * t.data_block_size)
    (hlt : payload < 2 ^ 32 - 36) :
    wav_header t =
      some (str_bytes "RIFF" ++ le32 (payload + 36) ++ str_bytes "WAVE"
        ++ str_bytes "fmt " ++ le32 16 ++ le16 1 ++ le16 2 ++ le32 44100
        ++ le32 176400 ++ le16 4 ++ le16 16 ++ str_bytes "data"
        ++ le32 payload)
    ∧ (wav_header t).map List.length = some 44 := by
  have hsub : u64_sub ss t.start_sector = ss - t.start_sector := by
    simp [u64_sub, hle]
  have h64 : (ss - t.start_sector + 1) % 2 ^ 64 = ss - t.start_sector + 1 :=
    Nat.mod_eq_of_lt hcnt
  have hplt64 : payload < 2 ^ 64 := by
    have : (2 : Nat) ^ 32 - 36 < 2 ^ 64 := by norm_num
    omega
  have hreal : (ss - t.start_sector + 1) * t.data_block_size % 2 ^ 64 = payload := by
    rw [← hp]; exact Nat.mod_eq_of_lt hplt64
  have hplt32 : payload < 2 ^ 32 := by
    have : (2 : Nat) ^ 32 - 36 < 2 ^ 32 := by norm_num
    omega
  have hreal32 : payload % 2 ^ 32 = payload := Nat.mod_eq_of_lt hplt32
  have hfield : (payload + WAV_DATA_HEADER_LENGTH + WAV_FORMAT_HEADER_LENGTH + 4) % 2 ^ 32
      = payload + 36 := by
    have : payload + WAV_DATA_HEADER_LENGTH + WAV_FORMAT_HEADER_LENGTH + 4 = payload + 36 := by
      simp [WAV_DATA_HEADER_LENGTH, WAV_FORMAT_HEADER_LENGTH]
    rw [this]
    exact Nat.mod_eq_of_lt (by omega)
  have hmain : wav_header t =
      some (str_bytes "RIFF" ++ le32 (payload + 36) ++ str_bytes "WAVE"
        ++ str_bytes "fmt " ++ le32 16 ++ le16 1 ++ le16 2 ++ le32 44100
        ++ le32 176400 ++ le16 4 ++ le16 16 ++ str_bytes "data"
        ++ le32 payload) := by
    rw [wav_header, hss, Option.map_some']
    unfold wav_header_bytes
    rw [hsub, h64, hreal]
    simp only [hreal32, hfield]
  refine ⟨hmain, ?_⟩
  rw [hmain, Option.map_some']
  have h1 : (str_bytes "RIFF").length = 4 := by decide
  have h2 : (str_bytes "WAVE").length = 4 := by decide
  have h3 : (str_bytes "fmt ").length = 4 := by decide
  have h4 : (str_bytes "data").length = 4 := by decide
  simp [le32, le16, h1, h2, h3, h4]

/-- Witness for C5 at a one-sector audio-sized track (payload 2352). -/
theorem C5_wav_header_layout_witness :
    wav_header { start_sector := 0, stop_sector := some 0,
                 data_block_size := 2352 } =
      some (str_bytes "RIFF" ++ le32 (2352 + 36) ++ str_bytes "WAVE"
        ++ str_bytes "fmt " ++ le32 16 ++ le16 1 ++ le16 2 ++ le32 44100
        ++ le32 176400 ++ le16 4 ++ le16 16 ++ str_bytes "data"
        ++ le32 2352) :=
  (C5_wav_header_layout _ 0 2352 rfl (by decide) (by decide) (by decide)
    (by decide)).1

/-- Rust constant `SECTOR_SIZE`. -/
def SECTOR_SIZE : Nat := 2352

/-- In-place adjacent byte-pair swap of a sector buffer: models the loop
`for i in (0..SECTOR_SIZE).step_by(2) sector.swap(i, i + 1)` (the buffer
length 2352 is even, so the structural pairing is exact). -/
def swap_pairs : List Nat → List Nat
  | a :: b :: r => b :: a :: swap_pairs r
  | l => l

/-- Result of `Track::write_to_file`.  `error` covers the OS-level I/O
failure branches of the source (file create, seek, read, write), which the
in-memory model never takes; `panicked` models `stop_sector.unwrap()` on an
unresolved track. -/
inductive WResult where
  | ok (bytes : List Nat)
  | error (msg : String)
  | panicked
deriving DecidableEq, Repr

/-- The per-sector loop of `Track::write_to_file`.  Each iteration models
`reader.read(&mut sector)` on the in-memory image: it copies the next
`k = min 2352 (remaining bytes)` bytes over the front of the sector buffer
and leaves the tail of the buffer unchanged (a short read near end-of-file
is `Ok(k)` in Rust, not an error, and the code never inspects `k`); then the
optional byte swap of the full buffer; then the payload window
`sector[offset .. offset + size]` is appended to the output. -/
def write_loop (image : List Nat) (swapQ : Bool) (off sz : Nat) :
    Nat → Nat → List Nat → List Nat → List Nat
  | 0, _, _, acc => acc
  | n + 1, pos, buf, acc =>
    let k := min SECTOR_SIZE (image.length - pos)
    let buf1 := (image.drop pos).take k ++ buf.drop k
    let buf2 := if swapQ then swap_pairs buf1 else buf1
    write_loop image swapQ off sz n (pos + k) buf2 (acc ++ (buf2.drop off).take sz)

/-- Rust `Track::write_to_file` on an in-memory image: seek to `t.start`,
optionally emit the WAV header, then run the sector loop (sector count
`stop_sector - start_sector + 1` in u64 arithmetic) starting from a
zero-filled buffer.  File creation and seeking cannot fail in-memory, so the
corresponding `error` branches of the source are never taken here. -/
def write_to_file (t : Track) (a : Args) (image : List Nat) : WResult :=
  match t.stop_sector with
  | none => WResult.panicked
  | some ss =>
    let sectors := (u64_sub ss t.start_sector + 1) % 2 ^ 64
    let header := if a.to_wav && t.audio then wav_header_bytes t ss else []
    WResult.ok (header ++
      write_loop image (t.audio && a.swap_audo_bytes) t.data_block_offset
        t.data_block_size sectors t.start (List.replicate SECTOR_SIZE 0) [])

/-- Applies the byte swap when the flag is set (the conditional inside the
sector loop). -/
def maybe_swap (q : Bool) (l : List Nat) : List Nat :=
  if q then swap_pairs l else l

theorem maybe_swap_true (l : List Nat) : maybe_swap true l = swap_pairs l := rfl

theorem maybe_swap_false (l : List Nat) : maybe_swap false l = l := rfl

/-- Unfolding equation for one iteration of the sector loop, phrased with
`maybe_swap`. -/
theorem write_loop_succ (img : List Nat) (q : Bool) (off sz n pos : Nat)
    (buf acc : List Nat) :
    write_loop img q off sz (n + 1) pos buf acc =
      write_loop img q off sz n (pos + min SECTOR_SIZE (img.length - pos))
        (maybe_swap q ((img.drop pos).take (min SECTOR_SIZE (img.length - pos)) ++
          buf.drop (min SECTOR_SIZE (img.length - pos))))
        (acc ++ ((maybe_swap q ((img.drop pos).take (min SECTOR_SIZE (img.length - pos)) ++
          buf.drop (min SECTOR_SIZE (img.length - pos)))).drop off).take sz) := rfl

theorem swap_pairs_length (l : List Nat) : (swap_pairs l).length = l.length := by
  induction l using swap_pairs.induct with
  | case1 a b r ih => simp [swap_pairs, ih]
  | case2 l h => cases l with
    | nil => rfl
    | cons a r => cases r with
      | nil => rfl
      | cons b r2 => exact absurd rfl (h a b r2)

theorem maybe_swap_length (q : Bool) (l : List Nat) :
    (maybe_swap q l).length = l.length := by
  cases q <;> simp [maybe_swap, swap_pairs_length]

/-- Closed form of the sector loop when every read is complete: the output is
the concatenation, sector by sector, of the payload window of the (optionally
swapped) full sector. -/
theorem write_loop_complete (image : List Nat) (q : Bool) (off sz : Nat) :
    ∀ (n pos : Nat) (buf acc : List Nat), buf.length ≤ SECTOR_SIZE →
    pos + n * SECTOR_SIZE ≤ image.length →
    write_loop image q off sz n pos buf acc =
      acc ++ (List.range n).flatMap (fun k =>
        ((maybe_swap q ((image.drop (pos + SECTOR_SIZE * k)).take SECTOR_SIZE)).drop off).take sz) := by
  intro n
  induction n with
  | zero => intro pos buf acc _ _; simp [write_loop]
  | succ m ih =>
    intro pos buf acc hbuf hlen
    have hms : (m + 1) * SECTOR_SIZE = SECTOR_SIZE + m * SECTOR_SIZE := by ring
    have hone : pos + SECTOR_SIZE ≤ image.length := by omega
    have hk : min SECTOR_SIZE (image.length - pos) = SECTOR_SIZE := by omega
    have hdropbuf : buf.drop SECTOR_SIZE = [] := by
      apply List.drop_eq_nil_of_le
      exact hbuf
    have hbuf1 : (image.drop pos).take SECTOR_SIZE ++ buf.drop SECTOR_SIZE =
        (image.drop pos).take SECTOR_SIZE := by
      rw [hdropbuf, List.append_nil]
    rw [write_loop]
    simp only [hk, hbuf1]
    have hlen2 : (maybe_swap q ((image.drop pos).take SECTOR_SIZE)).length ≤ SECTOR_SIZE := by
      rw [maybe_swap_length]
      simp [List.length_take]
    have hrec := ih (pos + SECTOR_SIZE)
      (maybe_swap q ((image.drop pos).take SECTOR_SIZE))
      (acc ++ ((maybe_swap q ((image.drop pos).take SECTOR_SIZE)).drop off).take sz)
      hlen2 (by omega)
    have hq : (if q then swap_pairs ((image.drop pos).take SECTOR_SIZE)
        else (image.drop pos).take SECTOR_SIZE) =
        maybe_swap q ((image.drop pos).take SECTOR_SIZE) := rfl
    rw [hq, hrec]
    rw [List.range_succ_eq_map]
    rw [List.flatMap_cons]
    have hshift : ∀ k : Nat, pos + SECTOR_SIZE * Nat.succ k =
        pos + SECTOR_SIZE + SECTOR_SIZE * k := by
      intro k; simp [Nat.mul_succ]; omega
    have hmap : (List.map Nat.succ (List.range m)).flatMap (fun k =>
          ((maybe_swap q ((image.drop (pos + SECTOR_SIZE * k)).take SECTOR_SIZE)).drop off).take sz) =
        (List.range m).flatMap (fun k =>
          ((maybe_swap q ((image.drop (pos + SECTOR_SIZE + SECTOR_SIZE * k)).take SECTOR_SIZE)).drop off).take sz) := by
      rw [List.flatMap_map]
      apply List.flatMap_congr
      intro k _
      rw [hshift]
    rw [hmap]
    simp [Nat.mul_comm, List.append_assoc]

theorem write_to_file_some (t : Track) (a : Args) (img : List Nat) (ss : Nat)
    (h : t.stop_sector = some ss) :
    write_to_file t a img = WResult.ok
      ((if a.to_wav && t.audio then wav_header_bytes t ss else []) ++
        write_loop img (t.audio && a.swap_audo_bytes) t.data_block_offset
          t.data_block_size ((u64_sub ss t.start_sector + 1) % 2 ^ 64) t.start
          (List.replicate SECTOR_SIZE 0) []) := by
  unfold write_to_file
  rw [h]

theorem flatten_chunk (sz : Nat) :
    ∀ (L : List (List Nat)), (∀ l ∈ L, l.length = sz) →
    ∀ k, k < L.length → ((L.flatten.drop (sz * k)).take sz) = L.getD k [] := by
  intro L
  induction L with
  | nil => intro _ k hk; simp at hk
  | cons l0 rest ih =>
    intro hlen k hk
    cases k with
    | zero =>
      have h0 : l0.length = sz := hlen l0 (List.mem_cons_self l0 rest)
      simp only [List.flatten_cons, Nat.mul_zero, List.drop_zero,
        List.getD_cons_zero]
      rw [← h0, List.take_left]
    | succ k2 =>
      have h0 : l0.length = sz := hlen l0 (List.mem_cons_self l0 rest)
      have hmul : sz * (k2 + 1) = l0.length + sz * k2 := by rw [h0]; ring
      rw [List.flatten_cons, hmul, ← List.drop_drop, List.drop_left,
        List.getD_cons_succ]
      exact ih (fun l hl => hlen l (List.mem_cons_of_mem l0 hl)) k2
        (by simpa using hk)

theorem range_flatMap_length {f : Nat → List Nat} {sz n : Nat}
    (hf : ∀ k < n, (f k).length = sz) :
    ((List.range n).flatMap f).length = n * sz := by
  rw [List.length_flatMap]
  have hmap : List.map (List.length ∘ f) (List.range n) = List.replicate n sz := by
    rw [List.eq_replicate_iff]
    constructor
    · simp
    · intro b hb
      rcases List.mem_map.mp hb with ⟨k, hk, hbk⟩
      rw [← hbk]
      exact hf k (List.mem_range.mp hk)
  rw [hmap, List.sum_replicate, smul_eq_mul]

theorem range_flatMap_chunk {f : Nat → List Nat} {sz n : Nat}
    (hf : ∀ k < n, (f k).length = sz) :
    ∀ k, k < n → (((List.range n).flatMap f).drop (sz * k)).take sz = f k := by
  intro k hk
  have hflat : (List.range n).flatMap f = (List.map f (List.range n)).flatten := rfl
  rw [hflat, flatten_chunk sz (List.map f (List.range n))
    (by intro l hl
        rcases List.mem_map.mp hl with ⟨j, hj, hjl⟩
        rw [← hjl]; exact hf j (List.mem_range.mp hj))
    k (by simpa using hk)]
  rw [List.getD_eq_getElem?_getD]
  simp [List.getElem?_map, List.getElem?_range, hk]

theorem window_slice (img : List Nat) (p off sz : Nat) (hoff : off + sz ≤ 2352) :
    (((img.drop p).take 2352).drop off).take sz = (img.drop (p + off)).take sz := by
  rw [List.drop_take, List.take_take, List.drop_drop]
  congr 1
  omega

/-- A Mode1/2352 track exactly as `read_cue` builds it: fresh, number and
mode set, resolved through `get_track_mode`, with its boundary fields filled
in. -/
def mode1_track (a : Args) (n st ss : Nat) : Track :=
  { get_track_mode { default_track with mode := Mode.mode1_2352, number := n } a with
    start_sector := st, stop_sector := some ss, start := st * 2352 }

/-- C7: extracting a Mode1/2352 track with `raw` and `psx_truncate` unset,
when the image holds all its sectors in full, yields exactly
`(stop_sector - start_sector + 1) * 2048` bytes, and the k-th 2048-byte
chunk is bytes [16, 2064) of source sector `start_sector + k`. -/
theorem C7_mode1_roundtrip (a : Args) (img : List Nat) (n st ss : Nat)
    (hraw : a.raw = false) (hpsx : a.psx_truncate = false)
    (hle : st ≤ ss) (hcnt : ss - st + 1 < 2 ^ 64)
    (hlen : (ss + 1) * 2352 ≤ img.length) :
    ∃ out, write_to_file (mode1_track a n st ss) a img = WResult.ok out
      ∧ out.length = (ss - st + 1) * 2048
      ∧ ∀ k, k < ss - st + 1 →
          (out.drop (2048 * k)).take 2048 =
            (img.drop ((st + k) * 2352 + 16)).take 2048 := by
  have ht : mode1_track a n st ss =
      { start_sector := st, stop_sector := some ss, start := st * 2352,
        stop := none, mode := Mode.mode1_2352, extension := Extension.iso,
        number := n, audio := false, data_block_offset := 16,
        data_block_size := 2048 } := rfl
  have hsub : u64_sub ss st = ss - st := by simp [u64_sub, hle]
  have hsect : (u64_sub ss st + 1) % 2 ^ 64 = ss - st + 1 := by
    rw [hsub]; exact Nat.mod_eq_of_lt hcnt
  have hbound : st * 2352 + (ss - st + 1) * SECTOR_SIZE ≤ img.length := by
    simp only [SECTOR_SIZE]
    have : st * 2352 + (ss - st + 1) * 2352 = (ss + 1) * 2352 := by
      have h1 : st + (ss - st + 1) = ss + 1 := by omega
      rw [← Nat.add_mul, h1]
    omega
  have hloop := write_loop_complete img false 16 2048 (ss - st + 1)
    (st * 2352) (List.replicate SECTOR_SIZE 0) []
    (by simp) hbound
  set f : Nat → List Nat := fun k =>
    ((maybe_swap false ((img.drop (st * 2352 + SECTOR_SIZE * k)).take SECTOR_SIZE)).drop 16).take 2048
    with hf
  have hfk : ∀ k, f k = (img.drop ((st + k) * 2352 + 16)).take 2048 := by
    intro k
    rw [hf]
    simp only [maybe_swap, if_neg Bool.false_ne_true, SECTOR_SIZE]
    rw [window_slice img (st * 2352 + 2352 * k) 16 2048 (by omega)]
    have harith : st * 2352 + 2352 * k + 16 = (st + k) * 2352 + 16 := by ring
    rw [harith]
  have hflen : ∀ k, k < ss - st + 1 → (f k).length = 2048 := by
    intro k hk
    rw [hfk k]
    rw [List.length_take, List.length_drop]
    have hkk : (st + k) * 2352 + 2064 ≤ (ss + 1) * 2352 := by
      have h1 : st + k + 1 ≤ ss + 1 := by omega
      have h2 : (st + k + 1) * 2352 ≤ (ss + 1) * 2352 :=
        Nat.mul_le_mul_right 2352 h1
      have h3 : (st + k) * 2352 + 2352 = (st + k + 1) * 2352 := by ring
      omega
    omega
  refine ⟨write_loop img false 16 2048 (ss - st + 1) (st * 2352)
    (List.replicate SECTOR_SIZE 0) [], ?_, ?_, ?_⟩
  · rw [write_to_file_some (mode1_track a n st ss) a img ss rfl]
    have haud : (mode1_track a n st ss).audio = false := rfl
    have hoff : (mode1_track a n st ss).data_block_offset = 16 := rfl
    have hsz : (mode1_track a n st ss).data_block_size = 2048 := rfl
    have hst : (mode1_track a n st ss).start = st * 2352 := rfl
    have hstsec : (mode1_track a n st ss).start_sector = st := rfl
    rw [haud, hoff, hsz, hst, hstsec, hsect]
    simp only [Bool.and_false, Bool.false_and, Bool.false_eq_true, if_false,
      List.nil_append]
  · rw [hloop, List.nil_append]
    exact range_flatMap_length hflen
  · intro k hk
    rw [hloop, List.nil_append,
      range_flatMap_chunk hflen k hk, hfk k]

/-- Witness for C7: one full sector of byte value 5. -/
theorem C7_mode1_roundtrip_witness :
    ∃ out, write_to_file (mode1_track {} 1 0 0) {} (List.replicate 2352 5) =
        WResult.ok out
      ∧ out.length = (0 - 0 + 1) * 2048
      ∧ ∀ k, k < 0 - 0 + 1 →
          (out.drop (2048 * k)).take 2048 =
            ((List.replicate 2352 5).drop ((0 + k) * 2352 + 16)).take 2048 :=
  C7_mode1_roundtrip {} (List.replicate 2352 5) 1 0 0 rfl rfl
    (Nat.le_refl 0) (by decide) (by rw [List.length_replicate])

theorem swap_pairs_swap_pairs (l : List Nat) :
    swap_pairs (swap_pairs l) = l := by
  induction l using swap_pairs.induct with
  | case1 a b r ih => simp [swap_pairs, ih]
  | case2 l h => cases l with
    | nil => rfl
    | cons a r => cases r with
      | nil => rfl
      | cons b r2 => exact absurd rfl (h a b r2)

/-- C8: the audio byte-pair swap is an involution, and when enabled it is
applied to the full 2352-byte sector buffer before the payload window is
sliced: with complete reads, every output chunk equals
`(swap_pairs full_sector)[offset .. offset + size]` — pairs align with the
even/odd boundaries of the full sector, not of the window. -/
theorem C8_swap_before_window :
    (∀ l : List Nat, swap_pairs (swap_pairs l) = l)
    ∧ ∀ (a : Args) (img : List Nat) (t : Track) (ss : Nat),
        t.audio = true → a.swap_audo_bytes = true → a.to_wav = false →
        t.stop_sector = some ss → t.start_sector ≤ ss →
        ss - t.start_sector + 1 < 2 ^ 64 →
        t.start = t.start_sector * 2352 →
        t.data_block_offset + t.data_block_size ≤ 2352 →
        (ss + 1) * 2352 ≤ img.length →
        ∃ out, write_to_file t a img = WResult.ok out
          ∧ ∀ k, k < ss - t.start_sector + 1 →
              (out.drop (t.data_block_size * k)).take t.data_block_size =
                ((swap_pairs ((img.drop ((t.start_sector + k) * 2352)).take 2352)).drop
                  t.data_block_offset).take t.data_block_size := by
  refine ⟨swap_pairs_swap_pairs, ?_⟩
  intro a img t ss haud hswap hwav hss hle hcnt hstart hwin hlen
  have hsect : (u64_sub ss t.start_sector + 1) % 2 ^ 64 = ss - t.start_sector + 1 := by
    rw [show u64_sub ss t.start_sector = ss - t.start_sector by simp [u64_sub, hle]]
    exact Nat.mod_eq_of_lt hcnt
  have hbound : t.start_sector * 2352 + (ss - t.start_sector + 1) * SECTOR_SIZE ≤ img.length := by
    simp only [SECTOR_SIZE]
    have heq : t.start_sector * 2352 + (ss - t.start_sector + 1) * 2352 = (ss + 1) * 2352 := by
      have h1 : t.start_sector + (ss - t.start_sector + 1) = ss + 1 := by omega
      rw [← Nat.add_mul, h1]
    omega
  have hloop := write_loop_complete img true t.data_block_offset
    t.data_block_size (ss - t.start_sector + 1) (t.start_sector * 2352)
    (List.replicate SECTOR_SIZE 0) [] (by simp) hbound
  set f : Nat → List Nat := fun k =>
    ((maybe_swap true ((img.drop (t.start_sector * 2352 + SECTOR_SIZE * k)).take SECTOR_SIZE)).drop
      t.data_block_offset).take t.data_block_size
    with hf
  have hfull : ∀ k, k < ss - t.start_sector + 1 →
      ((img.drop (t.start_sector * 2352 + SECTOR_SIZE * k)).take SECTOR_SIZE).length =
        SECTOR_SIZE := by
    intro k hk
    rw [List.length_take, List.length_drop]
    simp only [SECTOR_SIZE]
    have h1 : t.start_sector + k + 1 ≤ ss + 1 := by omega
    have h2 : (t.start_sector + k + 1) * 2352 ≤ (ss + 1) * 2352 :=
      Nat.mul_le_mul_right 2352 h1
    have h3 : (t.start_sector + k + 1) * 2352 =
        t.start_sector * 2352 + 2352 * k + 2352 := by ring
    omega
  have hflen : ∀ k, k < ss - t.start_sector + 1 → (f k).length = t.data_block_size := by
    intro k hk
    rw [hf]
    show (((maybe_swap true _).drop t.data_block_offset).take t.data_block_size).length = _
    rw [maybe_swap_true, List.length_take, List.length_drop, swap_pairs_length,
      hfull k hk]
    simp only [SECTOR_SIZE]
    omega
  have hfk : ∀ k, f k =
      ((swap_pairs ((img.drop ((t.start_sector + k) * 2352)).take 2352)).drop
        t.data_block_offset).take t.data_block_size := by
    intro k
    rw [hf]
    show ((maybe_swap true _).drop t.data_block_offset).take t.data_block_size = _
    rw [maybe_swap_true]
    simp only [SECTOR_SIZE]
    have harith : t.start_sector * 2352 + 2352 * k = (t.start_sector + k) * 2352 := by
      ring
    rw [harith]
  refine ⟨write_loop img true t.data_block_offset t.data_block_size
    (ss - t.start_sector + 1) (t.start_sector * 2352)
    (List.replicate SECTOR_SIZE 0) [], ?_, ?_⟩
  · rw [write_to_file_some t a img ss hss]
    rw [haud, hswap, hwav, hsect, hstart]
    simp only [Bool.false_and, Bool.false_eq_true, if_false, Bool.and_self,
      List.nil_append]
  · intro k hk
    rw [hloop, List.nil_append, range_flatMap_chunk hflen k hk, hfk k]

/-- Witness for C8: a one-sector audio track with an odd window offset. -/
theorem C8_swap_before_window_witness :
    ∃ out, write_to_file
        { start_sector := 0, stop_sector := some 0, start := 0,
          mode := Mode.audio, extension := Extension.cdr, number := 1,
          audio := true, data_block_offset := 1, data_block_size := 4 }
        { swap_audo_bytes := true }
        ([10, 11, 12, 13, 14, 15] ++ List.replicate 2346 0) = WResult.ok out
      ∧ ∀ k, k < 0 - 0 + 1 →
          (out.drop (4 * k)).take 4 =
            ((swap_pairs ((([10, 11, 12, 13, 14, 15] ++ List.replicate 2346 0).drop
              ((0 + k) * 2352)).take 2352)).drop 1).take 4 :=
  C8_swap_before_window.2 { swap_audo_bytes := true }
    ([10, 11, 12, 13, 14, 15] ++ List.replicate 2346 0)
    { start_sector := 0, stop_sector := some 0, start := 0,
      mode := Mode.audio, extension := Extension.cdr, number := 1,
      audio := true, data_block_offset := 1, data_block_size := 4 }
    0 rfl rfl rfl rfl (Nat.le_refl 0) (by decide) rfl (by decide)
    (by rw [List.length_append, List.length_replicate]; decide)

theorem write_loop_length (img : List Nat) (q : Bool) (off sz : Nat)
    (hwin : off + sz ≤ SECTOR_SIZE) :
    ∀ (n pos : Nat) (buf acc : List Nat), buf.length = SECTOR_SIZE →
    (write_loop img q off sz n pos buf acc).length = acc.length + n * sz := by
  intro n
  induction n with
  | zero => intro pos buf acc _; simp [write_loop]
  | succ m ih =>
    intro pos buf acc hbuf
    rw [write_loop_succ]
    have hbuf2 : (maybe_swap q
        ((img.drop pos).take (min SECTOR_SIZE (img.length - pos)) ++
          buf.drop (min SECTOR_SIZE (img.length - pos)))).length = SECTOR_SIZE := by
      rw [maybe_swap_length, List.length_append, List.length_take,
        List.length_drop, List.length_drop, hbuf]
      omega
    rw [ih _ _ _ hbuf2]
    rw [List.length_append, List.length_take, List.length_drop, hbuf2]
    have hms : (m + 1) * sz = sz + m * sz := by ring
    omega

theorem write_loop_one (img : List Nat) (q : Bool) (off sz pos : Nat)
    (buf acc : List Nat) :
    write_loop img q off sz 1 pos buf acc =
      acc ++ ((maybe_swap q ((img.drop pos).take (min SECTOR_SIZE (img.length - pos)) ++
        buf.drop (min SECTOR_SIZE (img.length - pos)))).drop off).take sz := rfl

theorem wav_header_bytes_length (t : Track) (ss : Nat) :
    (wav_header_bytes t ss).length = 44 := by
  unfold wav_header_bytes
  have h1 : (str_bytes "RIFF").length = 4 := by decide
  have h2 : (str_bytes "WAVE").length = 4 := by decide
  have h3 : (str_bytes "fmt ").length = 4 := by decide
  have h4 : (str_bytes "data").length = 4 := by decide
  simp [le32, le16, h1, h2, h3, h4]

/-- C2 counterexample: a 100-byte image (all bytes 9) and a one-sector
Mode1/2352 track.  The only read is short (100 of 2352 bytes), yet
`write_to_file` succeeds and writes the full 2048-byte window: 84 bytes that
were read and 1964 stale zero bytes from the untouched buffer tail —
refuting "a short read is a fatal I/O error for that track". -/
theorem C2_short_read_counterexample :
    write_to_file
      { start_sector := 0, stop_sector := some 0, start := 0,
        mode := Mode.mode1_2352, extension := Extension.iso, number := 1,
        audio := false, data_block_offset := 16, data_block_size := 2048 }
      {} (List.replicate 100 9) =
      WResult.ok (List.replicate 84 9 ++ List.replicate 1964 0) := by
  have hsect : (u64_sub 0 0 + 1) % 2 ^ 64 = 1 := by decide
  show WResult.ok ([] ++ write_loop (List.replicate 100 9) false 16 2048
    ((u64_sub 0 0 + 1) % 2 ^ 64) 0 (List.replicate SECTOR_SIZE 0) []) = _
  rw [hsect, write_loop_one, maybe_swap_false, List.drop_zero,
    List.length_replicate]
  have hmin : min SECTOR_SIZE (100 - 0) = 100 := by decide
  rw [hmin, List.take_replicate, List.drop_replicate]
  have h1 : min 100 100 = 100 := by decide
  have h2 : SECTOR_SIZE - 100 = 2252 := by decide
  rw [h1, h2]
  have hd : List.drop 16 (List.replicate 100 (9 : Nat) ++ List.replicate 2252 (0 : Nat)) =
      List.replicate 84 9 ++ List.replicate 2252 0 := by
    rw [show List.replicate 100 (9 : Nat) = List.replicate 16 9 ++ List.replicate 84 9
        from List.replicate_add 16 84 9,
      List.append_assoc]
    exact List.drop_left' (List.length_replicate 16 9)
  have ht2 : List.take 2048 (List.replicate 84 (9 : Nat) ++ List.replicate 2252 (0 : Nat)) =
      List.replicate 84 9 ++ List.replicate 1964 0 := by
    rw [show List.replicate 2252 (0 : Nat) = List.replicate 1964 0 ++ List.replicate 288 0
        from List.replicate_add 1964 288 0,
      ← List.append_assoc]
    apply List.take_left'
    rw [List.length_append, List.length_replicate, List.length_replicate]
  rw [hd, ht2]
  rfl

/-- C2 as amended: a short (or even empty) sector read is never a fatal
error — `write_to_file` only fails when the read itself returns an `Err`;
whatever the image length, it returns success and emits the full declared
payload (plus the 44-byte WAV header when applicable), padding from the
stale buffer tail. -/
theorem C2_short_read_tolerated (t : Track) (a : Args) (img : List Nat)
    (ss : Nat) (hss : t.stop_sector = some ss) (hle : t.start_sector ≤ ss)
    (hcnt : ss - t.start_sector + 1 < 2 ^ 64)
    (hwin : t.data_block_offset + t.data_block_size ≤ SECTOR_SIZE) :
    ∃ out, write_to_file t a img = WResult.ok out
      ∧ out.length = (if a.to_wav && t.audio then 44 else 0)
          + (ss - t.start_sector + 1) * t.data_block_size := by
  have hsect : (u64_sub ss t.start_sector + 1) % 2 ^ 64 = ss - t.start_sector + 1 := by
    rw [show u64_sub ss t.start_sector = ss - t.start_sector by simp [u64_sub, hle]]
    exact Nat.mod_eq_of_lt hcnt
  rw [write_to_file_some t a img ss hss]
  refine ⟨_, rfl, ?_⟩
  rw [List.length_append]
  rw [hsect, write_loop_length img (t.audio && a.swap_audo_bytes)
    t.data_block_offset t.data_block_size hwin (ss - t.start_sector + 1)
    t.start (List.replicate SECTOR_SIZE 0) [] (by simp)]
  cases hw : (a.to_wav && t.audio)
  · simp
  · simp [wav_header_bytes_length]

/-- Witness for C2's amended theorem on the short-read image. -/
theorem C2_short_read_tolerated_witness :
    ∃ out, write_to_file
        { start_sector := 0, stop_sector := some 0, start := 0,
          mode := Mode.mode1_2352, extension := Extension.iso, number := 1,
          audio := false, data_block_offset := 16, data_block_size := 2048 }
        {} (List.replicate 100 9) = WResult.ok out
      ∧ out.length = (if Args.to_wav {} && false then 44 else 0)
          + (0 - 0 + 1) * 2048 :=
  C2_short_read_tolerated _ {} (List.replicate 100 9) 0 rfl (Nat.le_refl 0)
    (by decide) (by decide)

/-- Rust `time_to_frames`: splits on `:`, parses the first (up to) three
components as u64 — `Err` (here `none`) on any non-numeric component — and
returns `75 * (mm * 60 + ss) + ff` in u64 arithmetic; missing components
default to 0, extra components are ignored (the `zip` stops at three). -/
def time_to_frames (s : String) : Option Nat :=
  let parts := (split_sep ':' s.data).map String.mk
  match (parts.take 3).mapM parse_u64 with
  | none => none
  | some vs =>
    some ((75 * (vs.getD 0 0 * 60 + vs.getD 1 0) + vs.getD 2 0) % 2 ^ 64)

/-- Parser state threaded through `read_cue`: the growing track list and the
(mutable) options record. -/
structure PState where
  tracks : List Track
  args : Args
deriving DecidableEq, Repr

/-- Result of processing one sheet line (or a prefix of lines): continue
with a new state, return an error, or panic. -/
inductive StepRes where
  | next (st : PState)
  | err (msg : String)
  | panicked
deriving DecidableEq, Repr

/-- Result of `read_cue`: `panicked` models an `unwrap` panic, `err` a
returned error value. -/
inductive CueResult where
  | ok (tracks : List Track)
  | err (msg : String)
  | panicked
deriving DecidableEq, Repr

/-- Applies `f` to the last element of the list
(Rust `tracks.last_mut().unwrap()` followed by field writes; total here — the
call sites guard emptiness). -/
def set_last (f : Track → Track) : List Track → List Track
  | [] => []
  | [t] => [f t]
  | t :: r => t :: set_last f r

/-- Applies `f` to the element at index `k`
(Rust `tracks.index_mut(k)` followed by field writes). -/
def set_at (f : Track → Track) : Nat → List Track → List Track
  | _, [] => []
  | 0, t :: r => f t :: r
  | n + 1, t :: r => t :: set_at f n r

/-- The `"TRACK"` arm of `read_cue`: push a fresh default track, parse the
number (fatal error on failure), set mode from the label and resolve it. -/
def handle_track (st : PState) (toks : List String) : StepRes :=
  let ts0 := st.tracks ++ [default_track]
  match toks[1]? with
  | none => StepRes.err "Unknown error"
  | some num_s =>
    match parse_u32 num_s with
    | none => StepRes.err "Error parsing track number"
    | some num =>
      let ts1 := set_last (fun t => { t with number := num }) ts0
      match toks[2]? with
      | none => StepRes.err "Unknown error"
      | some mode_s =>
        let ts2 := set_last
          (fun t => get_track_mode { t with mode := mode_of_str mode_s } st.args) ts1
        StepRes.next { st with tracks := ts2 }

/-- The `"INDEX"` arm of `read_cue`: requires an index token and a time
token; `time_to_frames(time).unwrap()` panics on a parse error, and
`tracks.last_mut().unwrap()` panics when no track exists yet; otherwise it
overwrites the current track's `start_sector`/`start` and, when the previous
track's `stop_sector` is still unresolved, closes it one sector before this
index. -/
def handle_index (st : PState) (toks : List String) : StepRes :=
  match toks[1]? with
  | none => StepRes.err "Missing index number"
  | some _ =>
    match toks[2]? with
    | none => StepRes.err "Missing INDEX time"
    | some time =>
      match time_to_frames time with
      | none => StepRes.panicked
      | some f =>
        if st.tracks = [] then StepRes.panicked
        else
          let ts1 := set_last
            (fun t => { t with start_sector := f, start := f * 2352 % 2 ^ 64 }) st.tracks
          let ts2 :=
            if 1 < ts1.length ∧ (ts1.getD (ts1.length - 2) default_track).stop_sector = none then
              set_at (fun t => { t with
                stop_sector := some (u64_sub f 1),
                stop := some (u64_sub (f * 2352 % 2 ^ 64) 1) }) (ts1.length - 2) ts1
            else ts1
          StepRes.next { st with tracks := ts2 }

/-- The `"FILE"` arm of `read_cue`: strip the first and last characters of
the name token; adopt it as the image path when none was supplied, otherwise
a mismatch only logs a warning (no state change). -/
def handle_file (st : PState) (toks : List String) : StepRes :=
  match toks[1]? with
  | none => StepRes.err "Error reading FILE row"
  | some fname =>
    let stripped := String.mk ((fname.data.drop 1).dropLast)
    if st.args.bin_file = "" then
      StepRes.next { st with args := { st.args with bin_file := stripped } }
    else
      StepRes.next st

/-- The token scan of the per-line loop: the first token equal to a record
keyword decides the arm; any other token is skipped (`_ => continue`). -/
def first_keyword : List String → Option String
  | [] => none
  | t :: r =>
    if t = "TRACK" ∨ t = "INDEX" ∨ t = "FILE" then some t else first_keyword r

/-- Processing of one sheet line of `read_cue`. -/
def process_line (st : PState) (toks : List String) : StepRes :=
  match first_keyword toks with
  | none => StepRes.next st
  | some k =>
    if k = "TRACK" then handle_track st toks
    else if k = "INDEX" then handle_index st toks
    else handle_file st toks

/-- The line loop of `read_cue`, short-circuiting on error or panic. -/
def run_lines (st : PState) : List (List String) → StepRes
  | [] => StepRes.next st
  | l :: rest =>
    match process_line st l with
    | StepRes.next st2 => run_lines st2 rest
    | StepRes.err m => StepRes.err m
    | StepRes.panicked => StepRes.panicked

/-- Rust `read_cue` over pre-tokenised lines: run the line loop, fail on an
empty track list, stat the image file (`fs` models `fs::metadata(..).len()`),
and resolve the last track from the image length
(`stop = len - 1` in u64 arithmetic, `stop_sector = stop / 2352`). -/
def read_cue_toks (a : Args) (fs : String → Option Nat)
    (lines : List (List String)) : CueResult :=
  match run_lines { tracks := [], args := a } lines with
  | StepRes.err m => CueResult.err m
  | StepRes.panicked => CueResult.panicked
  | StepRes.next st =>
    if st.tracks = [] then CueResult.err "No valid CUE data found"
    else
      match fs st.args.bin_file with
      | none => CueResult.err "Could not open BIN file"
      | some size =>
        let ts1 := set_last (fun t => { t with stop := some (u64_sub size 1) }) st.tracks
        let ts2 := set_last
          (fun t => { t with stop_sector := some (u64_sub size 1 / 2352) }) ts1
        CueResult.ok ts2

/-- Rust `read_cue` on the sheet's lines (the line split of the sheet text is
given; each line is tokenised by whitespace as in the source). -/
def read_cue (a : Args) (fs : String → Option Nat) (lines : List String) : CueResult :=
  read_cue_toks a fs (lines.map line_tokens)

/-- C6: a non-numeric `mm:ss:ff` INDEX time is fatal, but not as the spec
says: `read_cue` panics on `time_to_frames(time).unwrap()` instead of
returning the error value that `time_to_frames` constructs. -/
theorem C6_nonnumeric_time_panics :
    read_cue { bin_file := "game.bin" } (fun _ => some 2352)
      ["TRACK 1 AUDIO", "INDEX 01 aa:bb:cc"] = CueResult.panicked := by
  decide

theorem first_keyword_none_of_no_keyword {l : List String}
    (h : ∀ tok ∈ l, tok ≠ "TRACK" ∧ tok ≠ "INDEX" ∧ tok ≠ "FILE") :
    first_keyword l = none := by
  induction l with
  | nil => rfl
  | cons t r ih =>
    have ht := h t (List.mem_cons_self t r)
    rw [first_keyword, if_neg]
    · exact ih (fun tok hm => h tok (List.mem_cons_of_mem t hm))
    · rintro (h1 | h2 | h3)
      exacts [ht.1 h1, ht.2.1 h2, ht.2.2 h3]

theorem run_lines_skip (st : PState) (pre rest : List (List String))
    (h : ∀ l ∈ pre, first_keyword l = none) :
    run_lines st (pre ++ rest) = run_lines st rest := by
  induction pre with
  | nil => rfl
  | cons l pr ih =>
    have hl : process_line st l = StepRes.next st := by
      rw [process_line, h l (List.mem_cons_self l pr)]
    rw [List.cons_append]
    simp only [run_lines, hl]
    exact ih (fun l2 hm => h l2 (List.mem_cons_of_mem l hm))

/-- C9: every `tracks.last_mut().unwrap()` in the INDEX arm presupposes a
preceding TRACK record; on a sheet whose first INDEX record comes before any
TRACK record, `read_cue` panics on the empty track list instead of
returning a structural error. -/
theorem C9_index_before_track_panics (a : Args) (fs : String → Option Nat)
    (pre rest : List (List String)) (i tm : String) (f : Nat)
    (hpre : ∀ l ∈ pre, ∀ tok ∈ l, tok ≠ "TRACK" ∧ tok ≠ "INDEX" ∧ tok ≠ "FILE")
    (htime : time_to_frames tm = some f) :
    read_cue_toks a fs (pre ++ (["INDEX", i, tm] :: rest)) = CueResult.panicked := by
  have hskip := run_lines_skip { tracks := [], args := a } pre
    (["INDEX", i, tm] :: rest)
    (fun l hm => first_keyword_none_of_no_keyword (hpre l hm))
  have hp : process_line { tracks := [], args := a } ["INDEX", i, tm] =
      handle_index { tracks := [], args := a } ["INDEX", i, tm] := rfl
  have h2 : handle_index { tracks := ([] : List Track), args := a }
      ["INDEX", i, tm] = StepRes.panicked := by
    simp only [handle_index, List.getElem?_cons_succ, List.getElem?_cons_zero,
      htime, if_true]
  unfold read_cue_toks
  rw [hskip]
  simp only [run_lines, hp, h2]

/-- Witness for C9: a comment line, then an INDEX record before any TRACK. -/
theorem C9_index_before_track_panics_witness :
    read_cue_toks {} (fun _ => some 2352)
      ([["REM", "hi"]] ++ (["INDEX", "01", "00:02:00"] :: [["TRACK", "1", "AUDIO"]])) =
      CueResult.panicked :=
  C9_index_before_track_panics {} (fun _ => some 2352) [["REM", "hi"]]
    [["TRACK", "1", "AUDIO"]] "01" "00:02:00" 150 (by decide) (by decide)

/-- C10: on a zero-length image the final `bin_file_size - 1` wraps in u64
arithmetic (release semantics; a debug build would panic), so `read_cue`
returns success with the last track's `stop` equal to `2 ^ 64 - 1` (and
`stop_sector` its quotient by 2352) instead of an image-access error. -/
theorem C10_zero_length_image_underflows (a : Args) (fs : String → Option Nat)
    (num mode i tm : String) (n f : Nat)
    (hnum : parse_u32 num = some n)
    (htime : time_to_frames tm = some f)
    (hfs : fs a.bin_file = some 0) :
    ∃ t, read_cue_toks a fs [["TRACK", num, mode], ["INDEX", i, tm]] =
        CueResult.ok [t]
      ∧ t.stop = some (2 ^ 64 - 1)
      ∧ t.stop_sector = some ((2 ^ 64 - 1) / 2352) := by
  have hsub : u64_sub 0 1 = 2 ^ 64 - 1 := by decide
  have hp1 : process_line { tracks := [], args := a } ["TRACK", num, mode] =
      handle_track { tracks := [], args := a } ["TRACK", num, mode] := rfl
  have h1 : handle_track { tracks := ([] : List Track), args := a }
      ["TRACK", num, mode] = StepRes.next
        { tracks := [get_track_mode
            { { default_track with number := n } with mode := mode_of_str mode } a],
          args := a } := by
    simp only [handle_track, List.getElem?_cons_succ, List.getElem?_cons_zero,
      hnum, List.nil_append, set_last]
  have hp2 : ∀ st : PState, process_line st ["INDEX", i, tm] =
      handle_index st ["INDEX", i, tm] := fun _ => rfl
  have h2 : handle_index
      { tracks := [get_track_mode
          { { default_track with number := n } with mode := mode_of_str mode } a],
        args := a } ["INDEX", i, tm] = StepRes.next
        { tracks := [{ get_track_mode
            { { default_track with number := n } with mode := mode_of_str mode } a with
            start_sector := f, start := f * 2352 % 2 ^ 64 }],
          args := a } := by
    simp only [handle_index, List.getElem?_cons_succ, List.getElem?_cons_zero,
      htime]
    rw [if_neg (List.cons_ne_nil _ _)]
    simp only [set_last, List.length_cons, List.length_nil]
    rw [if_neg]
    intro hcond
    omega
  unfold read_cue_toks
  simp only [run_lines, hp1, h1, hp2, h2]
  rw [if_neg (List.cons_ne_nil _ _), hfs]
  simp only [set_last]
  exact ⟨_, rfl, by rw [hsub], by rw [hsub]⟩

/-- Witness for C10 at a concrete sheet and a zero-length image. -/
theorem C10_zero_length_image_underflows_witness :
    ∃ t, read_cue_toks { bin_file := "x.bin" } (fun _ => some 0)
        [["TRACK", "1", "MODE1/2352"], ["INDEX", "01", "00:00:00"]] =
        CueResult.ok [t]
      ∧ t.stop = some (2 ^ 64 - 1)
      ∧ t.stop_sector = some ((2 ^ 64 - 1) / 2352) :=
  C10_zero_length_image_underflows { bin_file := "x.bin" } (fun _ => some 0)
    "1" "MODE1/2352" "01" "00:00:00" 1 0 (by decide) (by decide) rfl

/-- C3 counterexample: with two INDEX lines under one TRACK, the parsed
track's `start_sector` is 150 (the second INDEX), not the 0 the first INDEX
set — a subsequent INDEX line does overwrite `start`/`start_sector`. -/
theorem C3_subsequent_index_counterexample :
    read_cue { bin_file := "x" } (fun _ => some 705600)
      ["TRACK 1 MODE1/2352", "INDEX 00 00:00:00", "INDEX 01 00:02:00"] =
      CueResult.ok [{ start_sector := 150,
                      stop_sector := some 299,
                      start := 352800,
                      stop := some 705599,
                      mode := Mode.mode1_2352,
                      extension := Extension.iso,
                      number := 1,
                      audio := false,
                      data_block_offset := 16,
                      data_block_size := 2048 }]
    ∧ read_cue { bin_file := "x" } (fun _ => some 705600)
      ["TRACK 1 MODE1/2352", "INDEX 00 00:00:00"] =
      CueResult.ok [{ start_sector := 0,
                      stop_sector := some 299,
                      start := 0,
                      stop := some 705599,
                      mode := Mode.mode1_2352,
                      extension := Extension.iso,
                      number := 1,
                      audio := false,
                      data_block_offset := 16,
                      data_block_size := 2048 }]
    ∧ (150 : Nat) ≠ 0 := by
  refine ⟨by decide, by decide, by decide⟩

theorem set_last_append_singleton (f : Track → Track) :
    ∀ (l : List Track) (x : Track), set_last f (l ++ [x]) = l ++ [f x] := by
  intro l
  induction l with
  | nil => intro x; rfl
  | cons a l2 ih =>
    intro x
    cases l2 with
    | nil => rfl
    | cons b l3 =>
      show a :: set_last f ((b :: l3) ++ [x]) = a :: ((b :: l3) ++ [f x])
      rw [ih x]

/-- C3 as amended: every INDEX line for the current track overwrites its
`start`/`start_sector` (the last INDEX line wins); only the first INDEX line
after a TRACK participates in closing the previous track — once the previous
track's `stop_sector` is set, later INDEX lines leave it (and every earlier
track) unchanged. -/
theorem C3_last_index_wins (st : PState) (pre : List Track) (prev cur : Track)
    (idx tm : String) (f v : Nat)
    (hts : st.tracks = pre ++ [prev, cur])
    (hprev : prev.stop_sector = some v)
    (htime : time_to_frames tm = some f) :
    process_line st ["INDEX", idx, tm] = StepRes.next { st with tracks :=
      pre ++ [prev, { cur with start_sector := f, start := f * 2352 % 2 ^ 64 }] } := by
  have hp : process_line st ["INDEX", idx, tm] =
      handle_index st ["INDEX", idx, tm] := rfl
  rw [hp]
  have hsplit : ∀ z : Track, pre ++ [prev, z] = (pre ++ [prev]) ++ [z] := by
    intro z
    rw [List.append_assoc]
    rfl
  have hne : st.tracks ≠ [] := by
    rw [hts, hsplit cur]
    intro hcontra
    exact absurd (congrArg List.length hcontra) (by simp)
  simp only [handle_index, List.getElem?_cons_succ, List.getElem?_cons_zero,
    htime]
  rw [if_neg hne, hts, hsplit cur, set_last_append_singleton]
  have hlen : ((pre ++ [prev]) ++
      [{ cur with start_sector := f, start := f * 2352 % 2 ^ 64 }]).length =
      pre.length + 2 := by
    simp
  rw [hlen]
  have hgd : ((pre ++ [prev]) ++
      [{ cur with start_sector := f, start := f * 2352 % 2 ^ 64 }]).getD
      (pre.length + 2 - 2) default_track = prev := by
    have h1 : pre.length + 2 - 2 = pre.length := by omega
    rw [h1]
    rw [List.getD_append _ _ _ _ (by simp)]
    rw [List.getD_append_right _ _ _ _ (Nat.le_refl _)]
    simp [List.getD_cons_zero]
  rw [if_neg]
  · rw [← hsplit _]
  · rw [hgd]
    intro hcond
    rw [hprev] at hcond
    exact Option.noConfusion hcond.2

/-- Witness for C3's amended theorem: a closed previous track and a second
INDEX line moving the current track's start from sector 150 to 225. -/
theorem C3_last_index_wins_witness :
    process_line
      { tracks := [{ stop_sector := some 149 },
          { start_sector := 150, start := 352800 }], args := {} }
      ["INDEX", "02", "00:03:00"] =
      StepRes.next
        { tracks := [{ stop_sector := some 149 },
            { start_sector := 225, start := 225 * 2352 % 2 ^ 64 }], args := {} } :=
  C3_last_index_wins
    { tracks := [{ stop_sector := some 149 },
        { start_sector := 150, start := 352800 }], args := {} }
    [] { stop_sector := some 149 } { start_sector := 150, start := 352800 }
    "02" "00:03:00" 225 149 rfl rfl (by decide)

/-- C4 counterexample: track 2 carries INDEX 00 (00:02:00) and INDEX 01
(00:03:00).  Track 1 is closed by track 2's *first* INDEX
(stop_sector 149, stop 352799), but track 2's final `start_sector` is 225
(the second INDEX), so `stop_sector ≠ next start_sector - 1 = 224`. -/
theorem C4_adjacency_counterexample :
    read_cue { bin_file := "x" } (fun _ => some 705600)
      ["TRACK 1 MODE1/2352", "INDEX 01 00:00:00",
       "TRACK 2 MODE1/2352", "INDEX 00 00:02:00", "INDEX 01 00:03:00"] =
      CueResult.ok
        [{ start_sector := 0,
           stop_sector := some 149,
           start := 0,
           stop := some 352799,
           mode := Mode.mode1_2352,
           extension := Extension.iso,
           number := 1,
           audio := false,
           data_block_offset := 16,
           data_block_size := 2048 },
         { start_sector := 225,
           stop_sector := some 299,
           start := 529200,
           stop := some 705599,
           mode := Mode.mode1_2352,
           extension := Extension.iso,
           number := 2,
           audio := false,
           data_block_offset := 16,
           data_block_size := 2048 }]
    ∧ (149 : Nat) ≠ 225 - 1 := by
  refine ⟨by decide, by decide⟩

/-- One well-formed sheet entry for the amended C4 statement: the literal
TRACK-number, mode and INDEX-time tokens, together with their parsed
values (tied together by hypotheses at use sites). -/
structure Entry where
  numS : String
  modeS : String
  timeS : String
  num : Nat
  frames : Nat
deriving DecidableEq, Repr

/-- Fallback entry for `List.getD`. -/
def default_entry : Entry :=
  { numS := "", modeS := "", timeS := "", num := 0, frames := 0 }

/-- The two sheet lines of one entry: its TRACK header and its single INDEX
line. -/
def entry_lines (e : Entry) : List (List String) :=
  [["TRACK", e.numS, e.modeS], ["INDEX", "01", e.timeS]]

/-- A sheet in which every track has exactly one INDEX line. -/
def render_entries (es : List Entry) : List (List String) :=
  es.flatMap entry_lines

/-- The track as it stands right after its TRACK and INDEX lines were
processed: fresh, number set, mode resolved, start fields from its INDEX
time, stop fields still unresolved. -/
def open_track (a : Args) (e : Entry) : Track :=
  { get_track_mode
      { { default_track with number := e.num } with mode := mode_of_str e.modeS } a with
    start_sector := e.frames, start := e.frames * 2352 % 2 ^ 64 }

/-- Closing a track one sector before the next track's first INDEX time
`f` (u64 arithmetic as in the INDEX arm). -/
def close_track (t : Track) (f : Nat) : Track :=
  { t with stop_sector := some (u64_sub f 1),
           stop := some (u64_sub (f * 2352 % 2 ^ 64) 1) }

/-- The track list after the line loop has consumed the rendered entries:
each track closed by its successor's INDEX time, the final one still open. -/
def build_open (a : Args) : List Entry → List Track
  | [] => []
  | [e] => [open_track a e]
  | e :: e2 :: r => close_track (open_track a e) e2.frames :: build_open a (e2 :: r)

/-- Closing the last element of a track list when (and only when) its stop
is still unresolved — the effect of a fresh track's first INDEX line on the
tracks that precede it. -/
def close_last (f2 : Nat) : List Track → List Track
  | [] => []
  | [t] => [if t.stop_sector = none then close_track t f2 else t]
  | t :: r => t :: close_last f2 r

theorem get_track_mode_preserves (t : Track) (a : Args) :
    (get_track_mode t a).start_sector = t.start_sector
    ∧ (get_track_mode t a).stop_sector = t.stop_sector
    ∧ (get_track_mode t a).start = t.start
    ∧ (get_track_mode t a).stop = t.stop
    ∧ (get_track_mode t a).number = t.number := by
  cases h : t.mode <;> simp [get_track_mode, h] <;> split_ifs <;> simp

theorem open_track_stop_sector (a : Args) (e : Entry) :
    (open_track a e).stop_sector = none := by
  have h := (get_track_mode_preserves
    { { default_track with number := e.num } with mode := mode_of_str e.modeS } a).2.1
  exact h

theorem set_last_length (g : Track → Track) :
    ∀ l : List Track, (set_last g l).length = l.length := by
  intro l
  induction l with
  | nil => rfl
  | cons a r ih =>
    cases r with
    | nil => rfl
    | cons b r2 =>
      show (a :: set_last g (b :: r2)).length = (a :: b :: r2).length
      simp only [List.length_cons, ih]

theorem set_last_getD_lt (g : Track → Track) (d : Track) :
    ∀ (l : List Track) (k : Nat), k + 1 < l.length →
    (set_last g l).getD k d = l.getD k d := by
  intro l
  induction l with
  | nil => intro k hk; simp at hk
  | cons a r ih =>
    intro k hk
    cases r with
    | nil => simp at hk
    | cons b r2 =>
      show (a :: set_last g (b :: r2)).getD k d = (a :: b :: r2).getD k d
      cases k with
      | zero => simp [List.getD_cons_zero]
      | succ k2 =>
        rw [List.getD_cons_succ, List.getD_cons_succ]
        exact ih k2 (by simpa using hk)

theorem set_last_getD_last (g : Track → Track) (d : Track) :
    ∀ l : List Track, l ≠ [] →
    (set_last g l).getD (l.length - 1) d = g (l.getD (l.length - 1) d) := by
  intro l
  induction l with
  | nil => intro h; exact absurd rfl h
  | cons a r ih =>
    intro _
    cases r with
    | nil => rfl
    | cons b r2 =>
      have hidx : (a :: b :: r2).length - 1 = ((b :: r2).length - 1) + 1 := by
        simp only [List.length_cons]
        omega
      rw [hidx]
      show (a :: set_last g (b :: r2)).getD (((b :: r2).length - 1) + 1) d =
        g ((a :: b :: r2).getD (((b :: r2).length - 1) + 1) d)
      rw [List.getD_cons_succ, List.getD_cons_succ]
      exact ih (List.cons_ne_nil b r2)

theorem set_at_append_left (g : Track → Track) :
    ∀ (l₁ l₂ : List Track) (k : Nat), k < l₁.length →
    set_at g k (l₁ ++ l₂) = set_at g k l₁ ++ l₂ := by
  intro l₁
  induction l₁ with
  | nil => intro l₂ k hk; simp at hk
  | cons a r ih =>
    intro l₂ k hk
    cases k with
    | zero => rfl
    | succ k2 =>
      show a :: set_at g k2 (r ++ l₂) = (a :: set_at g k2 r) ++ l₂
      rw [ih l₂ k2 (by simpa using hk), List.cons_append]

theorem close_last_of_none (f2 : Nat) :
    ∀ l : List Track, (l.getD (l.length - 1) default_track).stop_sector = none →
    close_last f2 l = set_at (fun t => close_track t f2) (l.length - 1) l := by
  intro l
  induction l with
  | nil => intro _; rfl
  | cons a r ih =>
    intro h
    cases r with
    | nil =>
      show [if a.stop_sector = none then close_track a f2 else a] = [close_track a f2]
      rw [if_pos (by simpa using h)]
    | cons b r2 =>
      show a :: close_last f2 (b :: r2) = set_at (fun t => close_track t f2) ((b :: r2).length + 1 - 1) (a :: b :: r2)
      have hlen : (b :: r2).length + 1 - 1 = ((b :: r2).length - 1) + 1 := by
        simp only [List.length_cons]
        omega
      rw [hlen]
      show a :: close_last f2 (b :: r2) = a :: set_at (fun t => close_track t f2) ((b :: r2).length - 1) (b :: r2)
      have h2 : ((b :: r2).getD ((b :: r2).length - 1) default_track).stop_sector = none := by
        have := h
        rw [show (a :: b :: r2).length - 1 = ((b :: r2).length - 1) + 1 by
          simp only [List.length_cons]; omega] at this
        rwa [List.getD_cons_succ] at this
      rw [ih h2]

theorem close_last_of_some (f2 : Nat) :
    ∀ (l : List Track) (v : Nat),
    (l.getD (l.length - 1) default_track).stop_sector = some v →
    close_last f2 l = l := by
  intro l
  induction l with
  | nil => intro v _; rfl
  | cons a r ih =>
    intro v h
    cases r with
    | nil =>
      show [if a.stop_sector = none then close_track a f2 else a] = [a]
      rw [if_neg (by simp at h; simp [h])]
    | cons b r2 =>
      show a :: close_last f2 (b :: r2) = a :: b :: r2
      have h2 : ((b :: r2).getD ((b :: r2).length - 1) default_track).stop_sector = some v := by
        have := h
        rw [show (a :: b :: r2).length - 1 = ((b :: r2).length - 1) + 1 by
          simp only [List.length_cons]; omega] at this
        rwa [List.getD_cons_succ] at this
      rw [ih v h2]

theorem close_last_append_singleton (f2 : Nat) :
    ∀ (l : List Track) (t : Track),
    close_last f2 (l ++ [t]) =
      l ++ [if t.stop_sector = none then close_track t f2 else t] := by
  intro l
  induction l with
  | nil => intro t; rfl
  | cons a r ih =>
    intro t
    cases r with
    | nil => rfl
    | cons b r2 =>
      show a :: close_last f2 ((b :: r2) ++ [t]) = a :: ((b :: r2) ++ [_])
      rw [ih t]

theorem run_lines_next (st st2 : PState) (l : List String)
    (rest : List (List String)) (h : process_line st l = StepRes.next st2) :
    run_lines st (l :: rest) = run_lines st2 rest := by
  show (match process_line st l with
    | StepRes.next st3 => run_lines st3 rest
    | StepRes.err m => StepRes.err m
    | StepRes.panicked => StepRes.panicked) = run_lines st2 rest
  rw [h]

theorem handle_track_entry (st : PState) (e : Entry)
    (hnum : parse_u32 e.numS = some e.num) :
    handle_track st ["TRACK", e.numS, e.modeS] = StepRes.next
      { st with tracks := st.tracks ++ [get_track_mode
          { { default_track with number := e.num } with
            mode := mode_of_str e.modeS } st.args] } := by
  simp only [handle_track, List.getElem?_cons_succ, List.getElem?_cons_zero,
    hnum, set_last_append_singleton]

theorem handle_index_entry (st : PState) (prior : List Track) (T : Track)
    (i tm : String) (f : Nat)
    (htime : time_to_frames tm = some f)
    (hts : st.tracks = prior ++ [T]) :
    handle_index st ["INDEX", i, tm] = StepRes.next
      { st with tracks := close_last f prior ++
          [{ T with start_sector := f, start := f * 2352 % 2 ^ 64 }] } := by
  have hne : st.tracks ≠ [] := by
    rw [hts]
    simp
  simp only [handle_index, List.getElem?_cons_succ, List.getElem?_cons_zero,
    htime]
  rw [if_neg hne, hts, set_last_append_singleton]
  have hlen : ((prior ++ [{ T with start_sector := f, start := f * 2352 % 2 ^ 64 }]) : List Track).length = prior.length + 1 := by
    simp
  rw [hlen]
  cases hp : prior with
  | nil =>
    rw [if_neg]
    · rfl
    · intro hc
      have h1 := hc.1
      simp only [List.length_nil] at h1
      omega
  | cons p ps =>
    have hidx : (p :: ps).length + 1 - 2 = (p :: ps).length - 1 := by
      simp only [List.length_cons]
      omega
    rw [hidx]
    have hlt : (p :: ps).length - 1 < (p :: ps).length := by
      simp only [List.length_cons]
      omega
    rw [List.getD_append _ _ _ _ hlt]
    cases hss : ((p :: ps).getD ((p :: ps).length - 1) default_track).stop_sector with
    | none =>
      rw [if_pos ⟨by simp only [List.length_cons]; omega, rfl⟩]
      rw [set_at_append_left _ _ _ _ hlt]
      have hfun : (fun t => { t with
          stop_sector := some (u64_sub f 1),
          stop := some (u64_sub (f * 2352 % 2 ^ 64) 1) }) =
          fun t => close_track t f := rfl
      rw [hfun, ← close_last_of_none f (p :: ps) hss]
    | some v =>
      rw [if_neg (fun hc => Option.noConfusion hc.2)]
      rw [close_last_of_some f (p :: ps) v hss]

theorem run_entries (a : Args) : ∀ (es : List Entry) (e : Entry) (st : PState),
    st.args = a →
    parse_u32 e.numS = some e.num →
    time_to_frames e.timeS = some e.frames →
    (∀ x ∈ es, parse_u32 x.numS = some x.num ∧ time_to_frames x.timeS = some x.frames) →
    run_lines st (render_entries (e :: es)) = StepRes.next
      { tracks := close_last e.frames st.tracks ++ build_open a (e :: es),
        args := a } := by
  intro es
  induction es with
  | nil =>
    intro e st hargs hn ht _
    obtain ⟨ts, ar⟩ := st
    simp only at hargs
    subst hargs
    have hre : render_entries [e] =
        [["TRACK", e.numS, e.modeS], ["INDEX", "01", e.timeS]] := by
      simp [render_entries, entry_lines]
    rw [hre]
    have hstep1 : process_line ⟨ts, ar⟩ ["TRACK", e.numS, e.modeS] =
        StepRes.next ⟨ts ++ [get_track_mode
          { { default_track with number := e.num } with
            mode := mode_of_str e.modeS } ar], ar⟩ :=
      handle_track_entry ⟨ts, ar⟩ e hn
    rw [run_lines_next _ _ _ _ hstep1]
    have hraw2 := handle_index_entry
      ⟨ts ++ [get_track_mode
        { { default_track with number := e.num } with
          mode := mode_of_str e.modeS } ar], ar⟩
      ts (get_track_mode
        { { default_track with number := e.num } with
          mode := mode_of_str e.modeS } ar) "01" e.timeS e.frames ht rfl
    have hstep2 : process_line
        ⟨ts ++ [get_track_mode
          { { default_track with number := e.num } with
            mode := mode_of_str e.modeS } ar], ar⟩ ["INDEX", "01", e.timeS] =
        StepRes.next ⟨close_last e.frames ts ++ [open_track ar e], ar⟩ := hraw2
    rw [run_lines_next _ _ _ _ hstep2]
    rfl
  | cons e2 r ih =>
    intro e st hargs hn ht hall
    obtain ⟨ts, ar⟩ := st
    simp only at hargs
    subst hargs
    have hre : render_entries (e :: e2 :: r) =
        ["TRACK", e.numS, e.modeS] :: ["INDEX", "01", e.timeS] ::
          render_entries (e2 :: r) := by
      simp [render_entries, entry_lines]
    rw [hre]
    have hstep1 : process_line ⟨ts, ar⟩ ["TRACK", e.numS, e.modeS] =
        StepRes.next ⟨ts ++ [get_track_mode
          { { default_track with number := e.num } with
            mode := mode_of_str e.modeS } ar], ar⟩ :=
      handle_track_entry ⟨ts, ar⟩ e hn
    rw [run_lines_next _ _ _ _ hstep1]
    have hraw2 := handle_index_entry
      ⟨ts ++ [get_track_mode
        { { default_track with number := e.num } with
          mode := mode_of_str e.modeS } ar], ar⟩
      ts (get_track_mode
        { { default_track with number := e.num } with
          mode := mode_of_str e.modeS } ar) "01" e.timeS e.frames ht rfl
    have hstep2 : process_line
        ⟨ts ++ [get_track_mode
          { { default_track with number := e.num } with
            mode := mode_of_str e.modeS } ar], ar⟩ ["INDEX", "01", e.timeS] =
        StepRes.next ⟨close_last e.frames ts ++ [open_track ar e], ar⟩ := hraw2
    rw [run_lines_next _ _ _ _ hstep2]
    rw [ih e2 ⟨close_last e.frames ts ++ [open_track ar e], ar⟩ rfl
      (hall e2 (List.mem_cons_self e2 r)).1
      (hall e2 (List.mem_cons_self e2 r)).2
      (fun x hx => hall x (List.mem_cons_of_mem e2 hx))]
    show StepRes.next ⟨close_last e2.frames
      (close_last e.frames ts ++ [open_track ar e]) ++ build_open ar (e2 :: r), ar⟩ =
      StepRes.next ⟨close_last e.frames ts ++ build_open ar (e :: e2 :: r), ar⟩
    rw [close_last_append_singleton, open_track_stop_sector, if_pos rfl]
    rw [List.append_assoc]
    rfl

theorem getD_entry_mem (l : List Entry) (n : Nat) (h : n < l.length) :
    l.getD n default_entry ∈ l := by
  rw [List.getD_eq_getElem l default_entry h]
  exact List.getElem_mem h

theorem build_open_length (a : Args) :
    ∀ es : List Entry, (build_open a es).length = es.length := by
  intro es
  induction es with
  | nil => rfl
  | cons e r ih =>
    cases r with
    | nil => rfl
    | cons e2 r2 =>
      show (close_track (open_track a e) e2.frames :: build_open a (e2 :: r2)).length =
        (e :: e2 :: r2).length
      simp only [List.length_cons, ih]

theorem build_open_getD_lt (a : Args) :
    ∀ (es : List Entry) (k : Nat), k + 1 < es.length →
    (build_open a es).getD k default_track =
      close_track (open_track a (es.getD k default_entry))
        ((es.getD (k + 1) default_entry).frames) := by
  intro es
  induction es with
  | nil => intro k hk; simp at hk
  | cons e r ih =>
    intro k hk
    cases r with
    | nil => simp at hk
    | cons e2 r2 =>
      cases k with
      | zero => rfl
      | succ k2 =>
        show (close_track (open_track a e) e2.frames ::
          build_open a (e2 :: r2)).getD (k2 + 1) default_track = _
        rw [List.getD_cons_succ]
        rw [ih k2 (by simpa using hk)]
        rfl

theorem build_open_getD_last (a : Args) :
    ∀ es : List Entry, es ≠ [] →
    (build_open a es).getD (es.length - 1) default_track =
      open_track a (es.getD (es.length - 1) default_entry) := by
  intro es
  induction es with
  | nil => intro h; exact absurd rfl h
  | cons e r ih =>
    intro _
    cases r with
    | nil => rfl
    | cons e2 r2 =>
      have hidx : (e :: e2 :: r2).length - 1 = ((e2 :: r2).length - 1) + 1 := by
        simp only [List.length_cons]
        omega
      rw [hidx]
      show (close_track (open_track a e) e2.frames ::
        build_open a (e2 :: r2)).getD (((e2 :: r2).length - 1) + 1) default_track =
        open_track a ((e :: e2 :: r2).getD (((e2 :: r2).length - 1) + 1) default_entry)
      rw [List.getD_cons_succ, List.getD_cons_succ]
      exact ih (List.cons_ne_nil e2 r2)

theorem read_cue_toks_of_next (a : Args) (fs : String → Option Nat)
    (lines : List (List String)) (B : List Track) (ar : Args)
    (h : run_lines ⟨[], a⟩ lines = StepRes.next ⟨B, ar⟩) :
    read_cue_toks a fs lines =
      (if B = [] then CueResult.err "No valid CUE data found"
       else match fs ar.bin_file with
       | none => CueResult.err "Could not open BIN file"
       | some size =>
         CueResult.ok (set_last
           (fun t => { t with stop_sector := some (u64_sub size 1 / 2352) })
           (set_last (fun t => { t with stop := some (u64_sub size 1) }) B))) := by
  unfold read_cue_toks
  rw [h]

/-- C4 as amended: on a sheet in which **every track has exactly one INDEX
line**, with parseable numbers and times, strictly increasing start times
(in bounds) and a non-empty image, `read_cue` succeeds and every track except
the last has `stop_sector = next.start_sector - 1` and
`stop = next.start - 1`, while the last track has `stop = size - 1` and
`stop_sector = (size - 1) / 2352`.  (The unamended claim fails when a track
has several INDEX lines, since a later INDEX moves `start` after the
previous track was already closed — see the counterexample.) -/
theorem C4_track_boundaries (a : Args) (fs : String → Option Nat)
    (e0 : Entry) (rest : List Entry) (size : Nat)
    (hall : ∀ x ∈ e0 :: rest,
      parse_u32 x.numS = some x.num ∧ time_to_frames x.timeS = some x.frames)
    (hmono : ∀ k, k + 1 < (e0 :: rest).length →
      ((e0 :: rest).getD k default_entry).frames <
        ((e0 :: rest).getD (k + 1) default_entry).frames)
    (hbound : ∀ x ∈ e0 :: rest, x.frames * 2352 < 2 ^ 64)
    (hfs : fs a.bin_file = some size) (hsize : 1 ≤ size) :
    ∃ ts, read_cue_toks a fs (render_entries (e0 :: rest)) = CueResult.ok ts
      ∧ ts.length = (e0 :: rest).length
      ∧ (∀ k, k + 1 < ts.length →
          (ts.getD k default_track).stop_sector =
            some ((ts.getD (k + 1) default_track).start_sector - 1)
          ∧ (ts.getD k default_track).stop =
            some ((ts.getD (k + 1) default_track).start - 1))
      ∧ (ts.getD (ts.length - 1) default_track).stop = some (size - 1)
      ∧ (ts.getD (ts.length - 1) default_track).stop_sector =
          some ((size - 1) / 2352) := by
  have hrun : run_lines ⟨[], a⟩ (render_entries (e0 :: rest)) =
      StepRes.next ⟨build_open a (e0 :: rest), a⟩ :=
    run_entries a rest e0 ⟨[], a⟩ rfl (hall e0 (List.mem_cons_self e0 rest)).1
      (hall e0 (List.mem_cons_self e0 rest)).2
      (fun x hx => hall x (List.mem_cons_of_mem e0 hx))
  have hBlen : (build_open a (e0 :: rest)).length = (e0 :: rest).length :=
    build_open_length a (e0 :: rest)
  have hBne : build_open a (e0 :: rest) ≠ [] := by
    intro hc
    rw [hc] at hBlen
    simp at hBlen
  rw [read_cue_toks_of_next a fs _ (build_open a (e0 :: rest)) a hrun,
    if_neg hBne, hfs]
  have hYlen : (set_last (fun t => { t with stop := some (u64_sub size 1) })
      (build_open a (e0 :: rest))).length = (e0 :: rest).length := by
    rw [set_last_length]
    exact hBlen
  have hYne : set_last (fun t => { t with stop := some (u64_sub size 1) })
      (build_open a (e0 :: rest)) ≠ [] := by
    intro hc
    have := congrArg List.length hc
    rw [hYlen] at this
    simp at this
  have htslen : (set_last
      (fun t => { t with stop_sector := some (u64_sub size 1 / 2352) })
      (set_last (fun t => { t with stop := some (u64_sub size 1) })
        (build_open a (e0 :: rest)))).length = (e0 :: rest).length := by
    rw [set_last_length]
    exact hYlen
  have hstart : ∀ j, j < (e0 :: rest).length →
      ((set_last (fun t => { t with stop_sector := some (u64_sub size 1 / 2352) })
        (set_last (fun t => { t with stop := some (u64_sub size 1) })
          (build_open a (e0 :: rest)))).getD j default_track).start_sector =
        ((e0 :: rest).getD j default_entry).frames
      ∧ ((set_last (fun t => { t with stop_sector := some (u64_sub size 1 / 2352) })
        (set_last (fun t => { t with stop := some (u64_sub size 1) })
          (build_open a (e0 :: rest)))).getD j default_track).start =
        ((e0 :: rest).getD j default_entry).frames * 2352 % 2 ^ 64 := by
    intro j hj
    rcases Nat.lt_or_ge (j + 1) (e0 :: rest).length with h2 | h2
    · have hgd : (set_last (fun t => { t with stop_sector := some (u64_sub size 1 / 2352) })
          (set_last (fun t => { t with stop := some (u64_sub size 1) })
            (build_open a (e0 :: rest)))).getD j default_track =
          (build_open a (e0 :: rest)).getD j default_track := by
        rw [set_last_getD_lt _ default_track _ j (by rw [hYlen]; omega),
          set_last_getD_lt _ default_track _ j (by rw [hBlen]; omega)]
      rw [hgd, build_open_getD_lt a (e0 :: rest) j h2]
      exact ⟨rfl, rfl⟩
    · have hjeq : j = (e0 :: rest).length - 1 := by omega
      subst hjeq
      have hidx1 : (e0 :: rest).length - 1 =
          (set_last (fun t => { t with stop := some (u64_sub size 1) })
            (build_open a (e0 :: rest))).length - 1 := by
        rw [hYlen]
      rw [hidx1, set_last_getD_last _ default_track _ hYne]
      have hidx2 : (set_last (fun t => { t with stop := some (u64_sub size 1) })
          (build_open a (e0 :: rest))).length - 1 =
          (build_open a (e0 :: rest)).length - 1 := by
        rw [set_last_length]
      rw [hidx2, set_last_getD_last _ default_track _ hBne]
      have hidx3 : (build_open a (e0 :: rest)).length - 1 = (e0 :: rest).length - 1 := by
        rw [hBlen]
      rw [hidx3, build_open_getD_last a (e0 :: rest) (List.cons_ne_nil e0 rest)]
      exact ⟨rfl, rfl⟩
  refine ⟨_, rfl, htslen, ?_, ?_, ?_⟩
  · intro k hk
    rw [htslen] at hk
    have hgdk : (set_last (fun t => { t with stop_sector := some (u64_sub size 1 / 2352) })
        (set_last (fun t => { t with stop := some (u64_sub size 1) })
          (build_open a (e0 :: rest)))).getD k default_track =
        (build_open a (e0 :: rest)).getD k default_track := by
      rw [set_last_getD_lt _ default_track _ k (by rw [hYlen]; omega),
        set_last_getD_lt _ default_track _ k (by rw [hBlen]; omega)]
    rw [hgdk, build_open_getD_lt a (e0 :: rest) k hk]
    rw [(hstart (k + 1) hk).1, (hstart (k + 1) hk).2]
    have hF1 : 1 ≤ ((e0 :: rest).getD (k + 1) default_entry).frames := by
      have := hmono k hk
      omega
    have hFb : ((e0 :: rest).getD (k + 1) default_entry).frames * 2352 < 2 ^ 64 :=
      hbound _ (getD_entry_mem (e0 :: rest) (k + 1) hk)
    have hF2352 : 1 ≤ ((e0 :: rest).getD (k + 1) default_entry).frames * 2352 := by
      have h2352 : 2352 ≤ ((e0 :: rest).getD (k + 1) default_entry).frames * 2352 :=
        Nat.le_mul_of_pos_left 2352 (by omega)
      omega
    constructor
    · show some (u64_sub ((e0 :: rest).getD (k + 1) default_entry).frames 1) = _
      rw [u64_sub, if_pos hF1]
    · show some (u64_sub
        (((e0 :: rest).getD (k + 1) default_entry).frames * 2352 % 2 ^ 64) 1) = _
      rw [Nat.mod_eq_of_lt hFb, u64_sub, if_pos hF2352]
  · have hidx1 : (set_last (fun t => { t with stop_sector := some (u64_sub size 1 / 2352) })
        (set_last (fun t => { t with stop := some (u64_sub size 1) })
          (build_open a (e0 :: rest)))).length - 1 =
        (set_last (fun t => { t with stop := some (u64_sub size 1) })
          (build_open a (e0 :: rest))).length - 1 := by
      rw [set_last_length]
    rw [hidx1, set_last_getD_last _ default_track _ hYne]
    have hidx2 : (set_last (fun t => { t with stop := some (u64_sub size 1) })
        (build_open a (e0 :: rest))).length - 1 =
        (build_open a (e0 :: rest)).length - 1 := by
      rw [set_last_length]
    rw [hidx2, set_last_getD_last _ default_track _ hBne]
    show some (u64_sub size 1) = some (size - 1)
    rw [u64_sub, if_pos hsize]
  · have hidx1 : (set_last (fun t => { t with stop_sector := some (u64_sub size 1 / 2352) })
        (set_last (fun t => { t with stop := some (u64_sub size 1) })
          (build_open a (e0 :: rest)))).length - 1 =
        (set_last (fun t => { t with stop := some (u64_sub size 1) })
          (build_open a (e0 :: rest))).length - 1 := by
      rw [set_last_length]
    rw [hidx1, set_last_getD_last _ default_track _ hYne]
    show some (u64_sub size 1 / 2352) = some ((size - 1) / 2352)
    rw [u64_sub, if_pos hsize]

/-- Witness for C4's amended theorem: two single-INDEX tracks at 00:00:00 and
00:02:00 over a 705600-byte image. -/
theorem C4_track_boundaries_witness :
    ∃ ts, read_cue_toks { bin_file := "x" } (fun _ => some 705600)
        (render_entries
          [{ numS := "1", modeS := "MODE1/2352", timeS := "00:00:00", num := 1, frames := 0 },
           { numS := "2", modeS := "AUDIO", timeS := "00:02:00", num := 2, frames := 150 }]) =
        CueResult.ok ts
      ∧ ts.length =
          ([{ numS := "1", modeS := "MODE1/2352", timeS := "00:00:00", num := 1, frames := 0 },
            { numS := "2", modeS := "AUDIO", timeS := "00:02:00", num := 2, frames := 150 }] :
            List Entry).length
      ∧ (∀ k, k + 1 < ts.length →
          (ts.getD k default_track).stop_sector =
            some ((ts.getD (k + 1) default_track).start_sector - 1)
          ∧ (ts.getD k default_track).stop =
            some ((ts.getD (k + 1) default_track).start - 1))
      ∧ (ts.getD (ts.length - 1) default_track).stop = some (705600 - 1)
      ∧ (ts.getD (ts.length - 1) default_track).stop_sector =
          some ((705600 - 1) / 2352) :=
  C4_track_boundaries { bin_file := "x" } (fun _ => some 705600)
    { numS := "1", modeS := "MODE1/2352", timeS := "00:00:00", num := 1, frames := 0 }
    [{ numS := "2", modeS := "AUDIO", timeS := "00:02:00", num := 2, frames := 150 }]
    705600 (by decide)
    (by
      intro k hk
      simp only [List.length_cons, List.length_nil] at hk
      have hk0 : k = 0 := by omega
      subst hk0
      decide)
    (by decide) rfl (by decide)

end Rbchunk
